import Mathlib

/-!
Shallow embedding of `src/emuvim/dcemulator/node.py` (the fuller of the two
near-duplicate files): the `Datacenter` class with its process-wide counters
(`Datacenter.DC_COUNTER`, `DCDPID_BASE`), the `EmulatorCompute` container
records, and the Datacenter operations `create`, `startCompute`,
`stopCompute`, `listCompute`, `getStatus`, `assignResourceModel`.

The network fabric (`self.net`, a DCNetwork) is an external collaborator not
present in the sources; its primitives (`addSwitch`, `addDocker`, `addLink`,
`removeLink`, `removeDocker`, `getAllContainers`, `rm_registrar.register`)
are modelled from the spec's interface description (§6) as bookkeeping on
explicit lists.  The pluggable resource model's `allocate`/`free` calls are
recorded as an event trace so that call-pairing properties can be stated.
-/

namespace SonEmu

/-- A network attachment spec, e.g. `{"ip": "10.0.0.254/8"}` or the empty
dict `{}` (`ip := none`). -/
structure NetSpec where
  ip : Option String
deriving DecidableEq, Repr

/-- The `network` argument of `startCompute`: Python `None`, a bare dict, or
a list of dicts. -/
inductive NetworkArg
  | noneArg : NetworkArg
  | dict : NetSpec → NetworkArg
  | listArg : List NetSpec → NetworkArg
deriving DecidableEq, Repr

/-- Class `EmulatorCompute`: one container record.  `datacenter` is the owning
Datacenter's internal name (the Python object back-reference, used for
display only). -/
structure EmulatorCompute where
  name : String
  dimage : String
  dcmd : Option String
  datacenter : String
  flavor_name : String
deriving DecidableEq, Repr

/-- A switch handle as returned by the fabric's `addSwitch`: its Mininet
name and the datapath id string passed at creation. -/
structure SwitchHandle where
  name : String
  dpid : String
deriving DecidableEq, Repr

/-- A resource-model call, recorded when `startCompute` runs
`self._resource_model.allocate(d)` or `stopCompute` runs
`self._resource_model.free(self.containers[name])`. -/
inductive RMEvent
  | allocate : String → EmulatorCompute → RMEvent
  | free : String → EmulatorCompute → RMEvent
deriving DecidableEq, Repr

/-- A link in the fabric between a container and (optionally) a switch, with
its `params1` attachment parameters. -/
structure FabricLink where
  node1 : EmulatorCompute
  node2 : Option SwitchHandle
  params1 : NetSpec
deriving DecidableEq, Repr

/-- Modelled from the spec: the NetworkFabric collaborator (`self.net`,
a DCNetwork object outside the given sources) holds the fabric-wide
container list returned by `getAllContainers`, the links, the switches, the
`rm_registrar` registration log, and — for stating pairing properties — the
trace of resource-model `allocate`/`free` calls. -/
structure Net where
  allContainers : List EmulatorCompute
  links : List FabricLink
  switches : List SwitchHandle
  registrar : List (String × String)
  rmEvents : List RMEvent
deriving DecidableEq, Repr

/-- The process-wide mutable globals: `DCDPID_BASE` (initially 1000) and
the class counter `Datacenter.DC_COUNTER` (initially 1). -/
structure DCProcess where
  dcdpidBase : Nat
  dcCounter : Nat
deriving DecidableEq, Repr

/-- Process state at interpreter start: `DCDPID_BASE = 1000`,
`Datacenter.DC_COUNTER = 1`. -/
def initialProcess : DCProcess := { dcdpidBase := 1000, dcCounter := 1 }

/-- The per-`Datacenter` state: internal `name` ("dc%d"), user `label`,
`metadata`, the optional switch handle, the `containers` bookkeeping dict
(an insertion-ordered association list, as a Python dict), and the optional
resource model (identified by a tag, its calls being recorded in
`Net.rmEvents`). -/
structure Datacenter where
  name : String
  label : String
  metadata : List (String × String)
  switch : Option SwitchHandle
  containers : List (String × EmulatorCompute)
  resource_model : Option String
deriving DecidableEq, Repr

/-- The error outcomes of the Datacenter operations, one constructor per
`raise`/`assert`/crash site. -/
inductive Err
  | nameConflict : String → Err
  | notFound : String → Err
  | alreadyAssigned : Err
  | assertionError : Err
  | attributeError : Err
deriving DecidableEq, Repr

/-- Decimal/hexadecimal rendering of a natural number: digits of `n` in base
`b`, most significant first, as characters.  `natToBaseStr 10 n` is Python's
`"%d" % n`; `natToBaseStr 16 n` is `hex(n)[2:]` for `n > 0`. -/
def natToBaseStr (b n : Nat) : String :=
  String.mk (((Nat.digits b n).reverse).map Nat.digitChar)

/-- Constructor `Datacenter.__init__(label, metadata, resource_log_path)`: reads and
increments the class counter `DC_COUNTER`, sets
`self.name = "dc%d" % DC_COUNTER`, `self.switch = None`,
`self.containers = {}`, `self._resource_model = None`. -/
def datacenterInit (p : DCProcess) (label : String)
    (metadata : List (String × String)) : Datacenter × DCProcess :=
  (⟨"dc" ++ natToBaseStr 10 p.dcCounter, label, metadata, none, [], none⟩,
   { p with dcCounter := p.dcCounter + 1 })

/-- Method `Datacenter._get_next_dc_dpid()`: increments the global `DCDPID_BASE`
and returns the new value. -/
def getNextDcDpid (p : DCProcess) : Nat × DCProcess :=
  (p.dcdpidBase + 1, { p with dcdpidBase := p.dcdpidBase + 1 })

/-- Method `Datacenter.create()`: `self.switch = self.net.addSwitch("%s.s1" %
self.name, dpid=hex(self._get_next_dc_dpid())[2:])`.  `addSwitch` is
modelled from the spec (§6 `createSwitch`) as recording the new handle. -/
def Datacenter.create (dc : Datacenter) (net : Net) (p : DCProcess) :
    Datacenter × Net × DCProcess :=
  let r := getNextDcDpid p
  let sw : SwitchHandle := ⟨dc.name ++ ".s1", natToBaseStr 16 r.1⟩
  ({ dc with switch := some sw },
   { net with switches := net.switches ++ [sw] }, r.2)

/-- The in-function normalization of `startCompute`'s `network` argument:
`None` becomes `{}`, a bare dict becomes a one-element list, and an empty
list gets one empty dict appended. -/
def normalizeNetwork : NetworkArg → List NetSpec
  | .noneArg => [⟨none⟩]
  | .dict d => [d]
  | .listArg l => if l.length < 1 then l ++ [⟨none⟩] else l

/-- Method `Datacenter.startCompute(name, image=None, command=None, network=None,
flavor_name="tiny")`: assert `name is not None`; fail if the name exists
among the fabric's containers; default the image to `"ubuntu"` and
normalize `network`; create the container (`net.addDocker`, modelled from
the spec as appending to the fabric-wide list); call
`resource_model.allocate(d)` when a model is assigned; add one link per
network spec; record the container under `name` in `containers`; return the
container. -/
def Datacenter.startCompute (dc : Datacenter) (net : Net)
    (name : Option String) (image : Option String) (command : Option String)
    (network : NetworkArg) (flavor_name : String) :
    Except Err (EmulatorCompute × Datacenter × Net) :=
  match name with
  | none => .error .assertionError
  | some n =>
    if n ∈ net.allContainers.map (·.name) then
      .error (.nameConflict n)
    else
      let image := image.getD "ubuntu"
      let network := normalizeNetwork network
      let d : EmulatorCompute := ⟨n, image, command, dc.name, flavor_name⟩
      let net := { net with allContainers := net.allContainers ++ [d] }
      let net :=
        match dc.resource_model with
        | some rm => { net with rmEvents := net.rmEvents ++ [RMEvent.allocate rm d] }
        | none => net
      let net := { net with
        links := net.links ++ network.map (fun nw => FabricLink.mk d dc.switch nw) }
      let dc := { dc with containers := dc.containers ++ [(n, d)] }
      .ok (d, dc, net)

/-- Modelled from the spec: `net.removeLink(link=None, node1=c, node2=sw)`
detaches the link(s) between the container and the switch (§6
`removeLink`). -/
def Net.removeLink (net : Net) (c : EmulatorCompute)
    (sw : Option SwitchHandle) : Net :=
  { net with links :=
      net.links.filter (fun l => ¬(l.node1 = c ∧ l.node2 = sw)) }

/-- Modelled from the spec: `net.removeDocker(name)` removes the container
with that name from the fabric (§6 `removeContainer`). -/
def Net.removeDocker (net : Net) (n : String) : Net :=
  { net with allContainers := net.allContainers.filter (·.name ≠ n) }

/-- Method `Datacenter.stopCompute(name)`: assert `name is not None`; fail if
`name not in self.containers`; call `resource_model.free(containers[name])`
when a model is assigned; remove the links to the switch; remove the
container from the fabric; delete the bookkeeping entry; return `True`. -/
def Datacenter.stopCompute (dc : Datacenter) (net : Net)
    (name : Option String) : Except Err (Datacenter × Net) :=
  match name with
  | none => .error .assertionError
  | some n =>
    match (dc.containers.filter (·.1 = n)).head? with
    | none => .error (.notFound n)
    | some p =>
      let net :=
        match dc.resource_model with
        | some rm => { net with rmEvents := net.rmEvents ++ [RMEvent.free rm p.2] }
        | none => net
      let net := net.removeLink p.2 dc.switch
      let net := net.removeDocker n
      let dc := { dc with containers := dc.containers.filter (·.1 ≠ n) }
      .ok (dc, net)

/-- Method `Datacenter.listCompute()`: `list(self.containers.itervalues())`. -/
def Datacenter.listCompute (dc : Datacenter) : List EmulatorCompute :=
  dc.containers.map (·.2)

/-- The record returned by `Datacenter.getStatus()`. -/
structure DCStatus where
  label : String
  internalname : String
  switch : String
  n_running_containers : Nat
  metadata : List (String × String)
deriving DecidableEq, Repr

/-- Method `Datacenter.getStatus()`: builds the status dict; reading
`self.switch.name` crashes with an `AttributeError` while `self.switch` is
still `None` (before `create()`). -/
def Datacenter.getStatus (dc : Datacenter) : Except Err DCStatus :=
  match dc.switch with
  | none => .error .attributeError
  | some sw =>
      .ok ⟨dc.label, dc.name, sw.name, dc.containers.length, dc.metadata⟩

/-- Method `Datacenter.assignResourceModel(rm)`: fail if a model is already
assigned; otherwise bind it and call `self.net.rm_registrar.register(self,
rm)` (the registrar is modelled from the spec §6 as a registration log). -/
def Datacenter.assignResourceModel (dc : Datacenter) (net : Net)
    (rm : String) : Except Err (Datacenter × Net) :=
  match dc.resource_model with
  | some _ => .error .alreadyAssigned
  | none =>
      .ok ({ dc with resource_model := some rm },
           { net with registrar := net.registrar ++ [(dc.name, rm)] })

/-- An empty fabric: no containers, links, switches, registrations or
resource-model calls yet. -/
def freshNet : Net := ⟨[], [], [], [], []⟩

/-- A Datacenter as produced by `__init__` at interpreter start (the first
`Datacenter(label)` of the process). -/
def freshDatacenter (label : String) : Datacenter :=
  (datacenterInit initialProcess label []).1


/-- One call against a fixed Datacenter: `startCompute` (with all its
arguments), `stopCompute`, or `assignResourceModel`. -/
inductive DCOp
  | startOp : Option String → Option String → Option String → NetworkArg →
      String → DCOp
  | stopOp : Option String → DCOp
  | assignOp : String → DCOp
deriving DecidableEq, Repr

/-- Performs one call; `none` when the call raises. -/
def runOp (op : DCOp) (s : Datacenter × Net) : Option (Datacenter × Net) :=
  match op with
  | .startOp name image command network flavor =>
    match s.1.startCompute s.2 name image command network flavor with
    | .ok (_, dc, net) => some (dc, net)
    | .error _ => none
  | .stopOp name => (s.1.stopCompute s.2 name).toOption
  | .assignOp rm => (s.1.assignResourceModel s.2 rm).toOption

/-- Performs a sequence of calls, requiring every one of them to succeed. -/
def runOps : List DCOp → Datacenter × Net → Option (Datacenter × Net)
  | [], s => some s
  | op :: ops, s =>
    match runOp op s with
    | some s' => runOps ops s'
    | none => none

/-- Names passed to the `startCompute` calls of a sequence. -/
def startNames : List DCOp → List String
  | [] => []
  | .startOp (some n) _ _ _ _ :: ops => n :: startNames ops
  | _ :: ops => startNames ops

/-- Names passed to the `stopCompute` calls of a sequence. -/
def stopNames : List DCOp → List String
  | [] => []
  | .stopOp (some n) :: ops => n :: stopNames ops
  | _ :: ops => stopNames ops

/-- Whether an operation is an `assignResourceModel` call. -/
def DCOp.isAssign : DCOp → Bool
  | .assignOp _ => true
  | _ => false

/-- Whether an operation is a `startCompute` call. -/
def DCOp.isStart : DCOp → Bool
  | .startOp _ _ _ _ _ => true
  | _ => false

/-- Whether a sequence contains no `assignResourceModel` call. -/
def noAssigns (ops : List DCOp) : Bool := ops.all (fun op => !op.isAssign)

/-- Whether every `assignResourceModel` call of the sequence comes before
every `startCompute` call. -/
def assignsBeforeStarts : List DCOp → Bool
  | [] => true
  | op :: ops =>
    if op.isStart then noAssigns ops else assignsBeforeStarts ops

/-- Number of recorded resource-model `allocate` calls for instances with
the given name. -/
def allocCountE (evs : List RMEvent) (n : String) : Nat :=
  (evs.filter (fun e =>
    match e with
    | .allocate _ c => c.name = n
    | .free _ _ => false)).length

/-- Number of recorded resource-model `free` calls for instances with the
given name. -/
def freeCountE (evs : List RMEvent) (n : String) : Nat :=
  (evs.filter (fun e =>
    match e with
    | .allocate _ _ => false
    | .free _ c => c.name = n)).length

/-- At every point of the call trace, for every instance name, the `free`
calls made so far never outnumber the `allocate` calls made so far: no
`free` happens without a prior matching `allocate`. -/
def PairedPrefixes (evs : List RMEvent) : Prop :=
  ∀ k n, freeCountE (evs.take k) n ≤ allocCountE (evs.take k) n

/-- The event recorded by `startCompute` for its resource-model branch:
one `allocate` when a model is assigned, nothing otherwise. -/
def allocOpt : Option String → EmulatorCompute → List RMEvent
  | some rm, d => [RMEvent.allocate rm d]
  | none, _ => []

/-- The event recorded by `stopCompute` for its resource-model branch:
one `free` when a model is assigned, nothing otherwise. -/
def freeOpt : Option String → EmulatorCompute → List RMEvent
  | some rm, d => [RMEvent.free rm d]
  | none, _ => []

/-- One if a resource model is assigned to the Datacenter, zero
otherwise: the number of resource-model calls one `startCompute` (or
`stopCompute`) of this Datacenter performs. -/
def rmBit (dc : Datacenter) : Nat :=
  match dc.resource_model with
  | some _ => 1
  | none => 0

/-- Structural invariant tying a Datacenter's bookkeeping to the fabric:
the bookkeeping keys are distinct, every bookkept name exists in the
fabric's container list, and each stored container's name is its key. -/
structure DCInv (dc : Datacenter) (net : Net) : Prop where
  nodupKeys : (dc.containers.map (·.1)).Nodup
  keysInFabric : ∀ n ∈ dc.containers.map (·.1),
    n ∈ net.allContainers.map (·.name)
  namesMatch : ∀ q ∈ dc.containers, q.2.name = q.1

/-- Inductive invariant for the allocate/free pairing argument, relative to
the operations still to be run: names yet to be started have no events and
no bookkeeping entry; a bookkept (running) name has exactly `rmBit` many
allocates and no free; any other name has equally many allocates and
frees; and no trace prefix has more frees than allocates. -/
structure RMInv (dc : Datacenter) (net : Net) (ops : List DCOp) : Prop where
  base : DCInv dc net
  startsNodup : (startNames ops).Nodup
  startsFresh : ∀ m ∈ startNames ops, allocCountE net.rmEvents m = 0 ∧
    freeCountE net.rmEvents m = 0 ∧ m ∉ dc.containers.map (·.1)
  active : ∀ m ∈ dc.containers.map (·.1),
    allocCountE net.rmEvents m = rmBit dc ∧ freeCountE net.rmEvents m = 0
  inactive : ∀ m, m ∉ dc.containers.map (·.1) →
    allocCountE net.rmEvents m = freeCountE net.rmEvents m ∧
    allocCountE net.rmEvents m ≤ rmBit dc
  paired : PairedPrefixes net.rmEvents

/-- Iterates `_get_next_dc_dpid` `k` times, returning the issued values in
call order together with the final process state. -/
def iterDpid : Nat → DCProcess → List Nat × DCProcess
  | 0, p => ([], p)
  | k + 1, p =>
    let r := getNextDcDpid p
    let rest := iterDpid k r.2
    (r.1 :: rest.1, rest.2)

/-- Builds one Datacenter per label — `Datacenter(label)` followed by
`create()` — threading the process-wide counters and the fabric. -/
def mkDatacenters : List String → DCProcess → Net →
    List Datacenter × DCProcess × Net
  | [], p, net => ([], p, net)
  | label :: labels, p, net =>
    let i := datacenterInit p label []
    let c := i.1.create net i.2
    let rest := mkDatacenters labels c.2.2 c.2.1
    (c.1 :: rest.1, rest.2)

/-! ### Injectivity of the number renderings -/

theorem digitChar_inj_lt16 :
    ∀ a < 16, ∀ b < 16, Nat.digitChar a = Nat.digitChar b → a = b := by
  decide

theorem map_digitChar_inj : ∀ l1 l2 : List Nat,
    (∀ x ∈ l1, x < 16) → (∀ x ∈ l2, x < 16) →
    l1.map Nat.digitChar = l2.map Nat.digitChar → l1 = l2
  | [], [], _, _, _ => rfl
  | [], _ :: _, _, _, h => by simp at h
  | _ :: _, [], _, _, h => by simp at h
  | a :: l1, b :: l2, h1, h2, h => by
    simp only [List.map_cons, List.cons.injEq] at h
    have hab : a = b :=
      digitChar_inj_lt16 a (h1 a (by simp)) b (h2 b (by simp)) h.1
    rw [hab, map_digitChar_inj l1 l2 (fun x hx => h1 x (by simp [hx]))
      (fun x hx => h2 x (by simp [hx])) h.2]

theorem natToBaseStr_inj {b : Nat} (hb1 : 1 < b) (hb2 : b ≤ 16) {m n : Nat}
    (h : natToBaseStr b m = natToBaseStr b n) : m = n := by
  unfold natToBaseStr at h
  injection h with h
  have hrev := map_digitChar_inj _ _
    (fun x hx => lt_of_lt_of_le
      (Nat.digits_lt_base hb1 (List.mem_reverse.mp hx)) hb2)
    (fun x hx => lt_of_lt_of_le
      (Nat.digits_lt_base hb1 (List.mem_reverse.mp hx)) hb2) h
  have hdig := List.reverse_injective hrev
  calc m = Nat.ofDigits b (Nat.digits b m) := (Nat.ofDigits_digits b m).symm
    _ = Nat.ofDigits b (Nat.digits b n) := by rw [hdig]
    _ = n := Nat.ofDigits_digits b n

theorem string_append_cancel_left {a s t : String} (h : a ++ s = a ++ t) :
    s = t := by
  cases a with | mk da => cases s with | mk ds => cases t with | mk dt =>
  simp only [HAppend.hAppend, Append.append, String.append] at h
  injection h with h
  simp [List.append_cancel_left h]

/-! ### The dpid allocator -/

theorem iterDpid_spec (k : Nat) (p : DCProcess) :
    iterDpid k p = (((List.range k).map fun i => p.dcdpidBase + i + 1),
      { p with dcdpidBase := p.dcdpidBase + k }) := by
  induction k generalizing p with
  | zero => simp [iterDpid]
  | succ k ih =>
    simp only [iterDpid, getNextDcDpid, ih, List.range_succ_eq_map,
      List.map_cons, List.map_map, Prod.mk.injEq]
    constructor
    · simp only [List.cons.injEq]
      refine ⟨trivial, List.map_congr_left fun i _ => ?_⟩
      simp only [Function.comp_apply]
      omega
    · simp only [DCProcess.mk.injEq]
      exact ⟨by omega, trivial⟩

/-- C6: every value issued by `_get_next_dc_dpid` is strictly greater than
every previously issued value, and strictly greater than the reserved base
1000 (so the first 1000 integers are never issued), for any number `k` of
calls made in the process. -/
theorem c6_dpid_strictly_increasing (k i j : Nat) (hij : i < j) (hjk : j < k) :
    (iterDpid k initialProcess).1.getD i 0 < (iterDpid k initialProcess).1.getD j 0 ∧
    ∀ v ∈ (iterDpid k initialProcess).1, 1000 < v := by
  rw [iterDpid_spec]
  constructor
  · have hik : i < k := lt_trans hij hjk
    simp only [List.getD_eq_getElem?_getD, List.getElem?_map,
      List.getElem?_range hik, List.getElem?_range hjk]
    simp only [Option.map_some', Option.getD_some]
    omega
  · intro v hv
    simp only [List.mem_map, List.mem_range] at hv
    obtain ⟨i, _, rfl⟩ := hv
    simp only [initialProcess]
    omega

/-- Witness for C6 at three calls, comparing the first and second values. -/
theorem c6_witness :
    ((0 : Nat) < 1 ∧ 1 < 3) ∧
    ((iterDpid 3 initialProcess).1.getD 0 0 < (iterDpid 3 initialProcess).1.getD 1 0 ∧
     ∀ v ∈ (iterDpid 3 initialProcess).1, 1000 < v) :=
  ⟨by decide, c6_dpid_strictly_increasing 3 0 1 (by decide) (by decide)⟩

/-! ### Error paths of startCompute / stopCompute / assignResourceModel -/

/-- C2: `startCompute` with a name that already exists among the fabric's
containers (this Datacenter's or any other's) fails with the name-conflict
error; the call returns before touching the bookkeeping map, the
resource-model trace, or the fabric, so the caller's state is unchanged. -/
theorem c2_start_name_conflict (dc : Datacenter) (net : Net) (n : String)
    (image command : Option String) (network : NetworkArg) (flavor : String)
    (h : n ∈ net.allContainers.map (·.name)) :
    dc.startCompute net (some n) image command network flavor =
      .error (.nameConflict n) := by
  simp [Datacenter.startCompute, h]

/-- Witness for C2: a fabric already holding a container named "x". -/
theorem c2_witness :
    ("x" ∈ (Net.mk [⟨"x", "ubuntu", none, "dc1", "tiny"⟩] [] [] [] []).allContainers.map (·.name)) ∧
    Datacenter.startCompute (Datacenter.mk "dc1" "d" [] none [] none)
      (Net.mk [⟨"x", "ubuntu", none, "dc1", "tiny"⟩] [] [] [] [])
      (some "x") none none .noneArg "tiny" = .error (.nameConflict "x") :=
  ⟨by decide, c2_start_name_conflict _ _ _ _ _ _ _ (by decide)⟩

/-- C3: `stopCompute` on a name absent from the `containers` bookkeeping map
fails with the not-found error; the call returns before the resource-model
free, the link removal, the container removal, or the bookkeeping delete, so
the caller's state is unchanged. -/
theorem c3_stop_not_found (dc : Datacenter) (net : Net) (n : String)
    (h : n ∉ dc.containers.map (·.1)) :
    dc.stopCompute net (some n) = .error (.notFound n) := by
  have hf : dc.containers.filter (·.1 = n) = [] := by
    rw [List.filter_eq_nil_iff]
    intro p hp hpn
    exact h (List.mem_map.mpr ⟨p, hp, by simpa using hpn⟩)
  simp [Datacenter.stopCompute, hf]

/-- Witness for C3: stopping "y" on a fresh Datacenter. -/
theorem c3_witness :
    ("y" ∉ (Datacenter.mk "dc1" "d" [] none [] none).containers.map (·.1)) ∧
    Datacenter.stopCompute (Datacenter.mk "dc1" "d" [] none [] none) freshNet
      (some "y") = .error (.notFound "y") :=
  ⟨by decide, c3_stop_not_found _ _ _ (by decide)⟩

/-- C7: after a successful `assignResourceModel rm1`, a second call fails
with the already-assigned error and performs no registrar call and no state
change (the error is raised before any mutation); the binding is still
`rm1`, and the registrar log holds exactly the one successful
registration. -/
theorem c7_assign_twice (dc dc1 : Datacenter) (net net1 : Net)
    (rm1 rm2 : String)
    (h : dc.assignResourceModel net rm1 = .ok (dc1, net1)) :
    dc1.assignResourceModel net1 rm2 = .error .alreadyAssigned ∧
    dc1.resource_model = some rm1 ∧
    net1.registrar = net.registrar ++ [(dc.name, rm1)] := by
  unfold Datacenter.assignResourceModel at h
  split at h
  · exact absurd h (by simp)
  · injection h with h
    injection h with h1 h2
    subst h1; subst h2
    exact ⟨rfl, rfl, rfl⟩

/-- Witness for C7 on a Datacenter with no model assigned yet. -/
theorem c7_witness :
    Datacenter.assignResourceModel (Datacenter.mk "dc1" "d" [] none [] none)
      freshNet "m1" =
      .ok (Datacenter.mk "dc1" "d" [] none [] (some "m1"),
           Net.mk [] [] [] [("dc1", "m1")] []) ∧
    (Datacenter.assignResourceModel
      (Datacenter.mk "dc1" "d" [] none [] (some "m1"))
      (Net.mk [] [] [] [("dc1", "m1")] []) "m2" = .error .alreadyAssigned ∧
     (Datacenter.mk "dc1" "d" [] none [] (some "m1")).resource_model = some "m1" ∧
     (Net.mk [] [] [] [("dc1", "m1")] []).registrar =
       freshNet.registrar ++ [((Datacenter.mk "dc1" "d" [] none [] none).name, "m1")]) :=
  ⟨rfl, c7_assign_twice _ _ _ _ _ "m2" rfl⟩

/-! ### Defaults and crash behaviour of startCompute / getStatus -/

/-- C8: on a successful `startCompute` with no image argument the container
gets the baseline image "ubuntu"; the `network` argument is normalized —
`None` to one attachment spec with no address, a bare mapping to a
one-element list, an empty list to one empty attachment spec, a non-empty
list kept as is — so the normalized list is never empty, and one link to
this Datacenter's switch is created per spec in list order. -/
theorem c8_start_defaults (dc : Datacenter) (net : Net) (n : String)
    (command : Option String) (network : NetworkArg) (flavor : String)
    (sp : NetSpec) (l : List NetSpec) (hl : l ≠ [])
    (d : EmulatorCompute) (dc' : Datacenter) (net' : Net)
    (h : dc.startCompute net (some n) none command network flavor =
      .ok (d, dc', net')) :
    d.dimage = "ubuntu" ∧
    net'.links = net.links ++
      (normalizeNetwork network).map (fun nw => FabricLink.mk d dc.switch nw) ∧
    1 ≤ (normalizeNetwork network).length ∧
    normalizeNetwork .noneArg = [⟨none⟩] ∧
    normalizeNetwork (.dict sp) = [sp] ∧
    normalizeNetwork (.listArg []) = [⟨none⟩] ∧
    normalizeNetwork (.listArg l) = l := by
  simp only [Datacenter.startCompute] at h
  split at h
  · exact absurd h (by simp)
  · simp only [Except.ok.injEq, Prod.mk.injEq] at h
    obtain ⟨h1, h2, h3⟩ := h
    subst h1; subst h2; subst h3
    refine ⟨rfl, ?_, ?_, rfl, rfl, rfl, ?_⟩
    · cases hrm : dc.resource_model <;> simp [hrm]
    · cases network with
      | noneArg => simp [normalizeNetwork]
      | dict sp' => simp [normalizeNetwork]
      | listArg l' =>
        simp only [normalizeNetwork]
        split
        · simp
        · omega
    · simp only [normalizeNetwork]
      have hlen : ¬ l.length < 1 := by
        have := List.length_pos.mpr hl
        omega
      rw [if_neg hlen]

/-- Witness for C8: starting "a" with all defaults on an empty fabric. -/
theorem c8_witness :
    (([NetSpec.mk (some "10.0.0.1/24")] : List NetSpec) ≠ [] ∧
     Datacenter.startCompute (Datacenter.mk "dc1" "d" [] none [] none)
       freshNet (some "a") none none .noneArg "tiny" =
       .ok (EmulatorCompute.mk "a" "ubuntu" none "dc1" "tiny",
         Datacenter.mk "dc1" "d" [] none
           [("a", EmulatorCompute.mk "a" "ubuntu" none "dc1" "tiny")] none,
         Net.mk [EmulatorCompute.mk "a" "ubuntu" none "dc1" "tiny"]
           [FabricLink.mk (EmulatorCompute.mk "a" "ubuntu" none "dc1" "tiny")
             none (NetSpec.mk none)] [] [] [])) ∧
    ((EmulatorCompute.mk "a" "ubuntu" none "dc1" "tiny").dimage = "ubuntu" ∧
     (Net.mk [EmulatorCompute.mk "a" "ubuntu" none "dc1" "tiny"]
        [FabricLink.mk (EmulatorCompute.mk "a" "ubuntu" none "dc1" "tiny")
          none (NetSpec.mk none)] [] [] []).links =
       freshNet.links ++ (normalizeNetwork .noneArg).map
         (fun nw => FabricLink.mk
           (EmulatorCompute.mk "a" "ubuntu" none "dc1" "tiny")
           (Datacenter.mk "dc1" "d" [] none [] none).switch nw) ∧
     1 ≤ (normalizeNetwork .noneArg).length ∧
     normalizeNetwork .noneArg = [⟨none⟩] ∧
     normalizeNetwork (.dict (NetSpec.mk (some "10.0.0.1/24"))) =
       [NetSpec.mk (some "10.0.0.1/24")] ∧
     normalizeNetwork (.listArg []) = [⟨none⟩] ∧
     normalizeNetwork (.listArg [NetSpec.mk (some "10.0.0.1/24")]) =
       [NetSpec.mk (some "10.0.0.1/24")]) :=
  ⟨⟨by decide, rfl⟩,
   c8_start_defaults _ _ _ _ _ _ _ _ (by decide) _ _ _ rfl⟩

/-- C9 counterexample: `startCompute` with the empty string as name
succeeds on a fresh Datacenter — the code only asserts `name is not None` —
creating a container named `""`, allocating a link, and adding a
bookkeeping entry, where the claim says an empty name must fail with an
error and create nothing. -/
theorem c9_counterexample :
    Datacenter.startCompute (Datacenter.mk "dc1" "d" [] none [] none)
      freshNet (some "") none none .noneArg "tiny" =
      .ok (EmulatorCompute.mk "" "ubuntu" none "dc1" "tiny",
        Datacenter.mk "dc1" "d" [] none
          [("", EmulatorCompute.mk "" "ubuntu" none "dc1" "tiny")] none,
        Net.mk [EmulatorCompute.mk "" "ubuntu" none "dc1" "tiny"]
          [FabricLink.mk (EmulatorCompute.mk "" "ubuntu" none "dc1" "tiny")
            none (NetSpec.mk none)] [] [] []) := rfl

/-- C9 amended: the precondition `startCompute` actually enforces is `name
is not None`: a call whose name argument is Python `None` fails with the
assertion error before creating a container, allocating resources, or
touching the bookkeeping map; an empty-string name is not rejected. -/
theorem c9_amended_none_name (dc : Datacenter) (net : Net)
    (image command : Option String) (network : NetworkArg) (flavor : String) :
    dc.startCompute net none image command network flavor =
      .error .assertionError := rfl

/-- C10: while `create()` has not been called the switch handle is still
`None`, so `getStatus()` dereferences it and fails (AttributeError) instead
of returning a record; after a successful `create()` it returns the
structured record with label, internal name, switch name, running-container
count, and metadata. -/
theorem c10_getStatus_requires_create (dc : Datacenter) (net : Net)
    (p : DCProcess) (h : dc.switch = none) :
    dc.getStatus = .error .attributeError ∧
    ((dc.create net p).1.getStatus =
      .ok ⟨dc.label, dc.name, dc.name ++ ".s1",
           dc.containers.length, dc.metadata⟩) := by
  constructor
  · simp [Datacenter.getStatus, h]
  · simp [Datacenter.getStatus, Datacenter.create, getNextDcDpid]

/-- Witness for C10 on a Datacenter fresh out of `__init__`. -/
theorem c10_witness :
    (Datacenter.mk "dc1" "d" [] none [] none).switch = none ∧
    ((Datacenter.mk "dc1" "d" [] none [] none).getStatus =
       .error .attributeError ∧
     (((Datacenter.mk "dc1" "d" [] none [] none).create freshNet
        initialProcess).1.getStatus =
       .ok ⟨"d", "dc1", "dc1" ++ ".s1",
            ([] : List (String × EmulatorCompute)).length, []⟩)) :=
  ⟨rfl, c10_getStatus_requires_create _ freshNet initialProcess rfl⟩

/-! ### Process-wide uniqueness of internal names and datapath ids -/

theorem mkDatacenters_getD (labels : List String) (p : DCProcess) (net : Net)
    (i : Nat) (hi : i < labels.length) (dflt : Datacenter) :
    (mkDatacenters labels p net).1.getD i dflt =
      ⟨"dc" ++ natToBaseStr 10 (p.dcCounter + i), labels.getD i "", [],
       some ⟨"dc" ++ natToBaseStr 10 (p.dcCounter + i) ++ ".s1",
             natToBaseStr 16 (p.dcdpidBase + i + 1)⟩,
       [], none⟩ := by
  induction labels generalizing p net i with
  | nil => simp at hi
  | cons label labels ih =>
    cases i with
    | zero =>
      simp [mkDatacenters, datacenterInit, Datacenter.create, getNextDcDpid]
    | succ i =>
      have hi' : i < labels.length := by simpa using hi
      have e1 : p.dcCounter + 1 + i = p.dcCounter + (i + 1) := by omega
      have e2 : p.dcdpidBase + 1 + i + 1 = p.dcdpidBase + (i + 1) + 1 := by
        omega
      simp only [mkDatacenters, datacenterInit, Datacenter.create,
        getNextDcDpid, List.getD_cons_succ]
      rw [ih _ _ i hi']
      simp only [e1, e2]

/-- C5: any two Datacenters created in the same process (each by
`Datacenter(label)` followed by `create()`) have distinct internal names and
distinct switch datapath identifiers; the class counter and the dpid
counter only ever increase, so values are never reused after a Datacenter
is deleted. -/
theorem c5_distinct_names_and_dpids (labels : List String) (i j : Nat)
    (dflt : Datacenter) (hij : i ≠ j)
    (hi : i < labels.length) (hj : j < labels.length) :
    ((mkDatacenters labels initialProcess freshNet).1.getD i dflt).name ≠
      ((mkDatacenters labels initialProcess freshNet).1.getD j dflt).name ∧
    ((mkDatacenters labels initialProcess freshNet).1.getD i dflt).switch.map
        (·.dpid) ≠
      ((mkDatacenters labels initialProcess freshNet).1.getD j dflt).switch.map
        (·.dpid) := by
  rw [mkDatacenters_getD labels _ _ i hi dflt,
    mkDatacenters_getD labels _ _ j hj dflt]
  constructor
  · intro h
    simp only at h
    have h2 := string_append_cancel_left h
    have h3 := natToBaseStr_inj (by norm_num) (by norm_num) h2
    omega
  · intro h
    simp only [Option.map_some'] at h
    injection h with h
    have h3 := natToBaseStr_inj (by norm_num) (by norm_num) h
    omega

/-- Witness for C5 with two Datacenters. -/
theorem c5_witness :
    ((0 : Nat) ≠ 1 ∧ 0 < (["x", "y"] : List String).length ∧
      1 < (["x", "y"] : List String).length) ∧
    (((mkDatacenters ["x", "y"] initialProcess freshNet).1.getD 0
        (Datacenter.mk "" "" [] none [] none)).name ≠
      ((mkDatacenters ["x", "y"] initialProcess freshNet).1.getD 1
        (Datacenter.mk "" "" [] none [] none)).name ∧
     ((mkDatacenters ["x", "y"] initialProcess freshNet).1.getD 0
        (Datacenter.mk "" "" [] none [] none)).switch.map (·.dpid) ≠
      ((mkDatacenters ["x", "y"] initialProcess freshNet).1.getD 1
        (Datacenter.mk "" "" [] none [] none)).switch.map (·.dpid)) :=
  ⟨⟨by decide, by decide, by decide⟩,
   c5_distinct_names_and_dpids ["x", "y"] 0 1 _ (by decide) (by decide)
     (by decide)⟩

/-! ### Shapes of the three operations on success -/

theorem runOp_start_none (img cmd : Option String) (nw : NetworkArg)
    (fl : String) (dc : Datacenter) (net : Net) :
    runOp (.startOp none img cmd nw fl) (dc, net) = none := rfl

theorem runOp_stop_none (dc : Datacenter) (net : Net) :
    runOp (.stopOp none) (dc, net) = none := rfl

theorem runOp_start_eq (n : String) (img cmd : Option String)
    (nw : NetworkArg) (fl : String) (dc : Datacenter) (net : Net) :
    runOp (.startOp (some n) img cmd nw fl) (dc, net) =
      if n ∈ net.allContainers.map (·.name) then none
      else
        some
          ({ dc with containers := dc.containers ++
              [(n, EmulatorCompute.mk n (img.getD "ubuntu") cmd dc.name fl)] },
           { allContainers := net.allContainers ++
               [EmulatorCompute.mk n (img.getD "ubuntu") cmd dc.name fl],
             links := net.links ++ (normalizeNetwork nw).map
               (fun s => FabricLink.mk
                 (EmulatorCompute.mk n (img.getD "ubuntu") cmd dc.name fl)
                 dc.switch s),
             switches := net.switches,
             registrar := net.registrar,
             rmEvents := net.rmEvents ++ allocOpt dc.resource_model
               (EmulatorCompute.mk n (img.getD "ubuntu") cmd dc.name fl) }) := by
  by_cases hmem : n ∈ net.allContainers.map (·.name) <;>
    cases hrm : dc.resource_model <;>
      simp [runOp, Datacenter.startCompute, hmem, hrm, allocOpt]

theorem runOp_stop_eq (n : String) (dc : Datacenter) (net : Net) :
    runOp (.stopOp (some n)) (dc, net) =
      match (dc.containers.filter (·.1 = n)).head? with
      | none => none
      | some p =>
        some
          ({ dc with containers := dc.containers.filter (·.1 ≠ n) },
           { allContainers := net.allContainers.filter (·.name ≠ n),
             links := net.links.filter
               (fun l => ¬(l.node1 = p.2 ∧ l.node2 = dc.switch)),
             switches := net.switches,
             registrar := net.registrar,
             rmEvents := net.rmEvents ++ freeOpt dc.resource_model p.2 }) := by
  cases hh : (dc.containers.filter (·.1 = n)).head? with
  | none => simp [runOp, Datacenter.stopCompute, hh, Except.toOption]
  | some p =>
    cases hrm : dc.resource_model <;>
      simp [runOp, Datacenter.stopCompute, Net.removeLink, Net.removeDocker,
        hh, hrm, freeOpt, Except.toOption]

theorem runOp_assign_eq (rm : String) (dc : Datacenter) (net : Net) :
    runOp (.assignOp rm) (dc, net) =
      match dc.resource_model with
      | some _ => none
      | none => some ({ dc with resource_model := some rm },
          { net with registrar := net.registrar ++ [(dc.name, rm)] }) := by
  cases hrm : dc.resource_model <;>
    simp [runOp, Datacenter.assignResourceModel, hrm, Except.toOption]

/-! ### Counting resource-model events -/

theorem allocCountE_append (l1 l2 : List RMEvent) (n : String) :
    allocCountE (l1 ++ l2) n = allocCountE l1 n + allocCountE l2 n := by
  simp [allocCountE, List.filter_append]

theorem freeCountE_append (l1 l2 : List RMEvent) (n : String) :
    freeCountE (l1 ++ l2) n = freeCountE l1 n + freeCountE l2 n := by
  simp [freeCountE, List.filter_append]

theorem allocCountE_allocOpt (o : Option String) (d : EmulatorCompute)
    (n : String) :
    allocCountE (allocOpt o d) n =
      (match o with
       | some _ => if d.name = n then 1 else 0
       | none => 0) := by
  cases o <;> by_cases h : d.name = n <;> simp [allocOpt, allocCountE, h]

theorem freeCountE_allocOpt (o : Option String) (d : EmulatorCompute)
    (n : String) : freeCountE (allocOpt o d) n = 0 := by
  cases o <;> simp [allocOpt, freeCountE]

theorem allocCountE_freeOpt (o : Option String) (d : EmulatorCompute)
    (n : String) : allocCountE (freeOpt o d) n = 0 := by
  cases o <;> simp [freeOpt, allocCountE]

theorem freeCountE_freeOpt (o : Option String) (d : EmulatorCompute)
    (n : String) :
    freeCountE (freeOpt o d) n =
      (match o with
       | some _ => if d.name = n then 1 else 0
       | none => 0) := by
  cases o <;> by_cases h : d.name = n <;> simp [freeOpt, freeCountE, h]

theorem pairedPrefixes_append_alloc (evs : List RMEvent) (rm : String)
    (c : EmulatorCompute) (h : PairedPrefixes evs) :
    PairedPrefixes (evs ++ [RMEvent.allocate rm c]) := by
  intro k n
  rcases le_or_lt k evs.length with hk | hk
  · rw [List.take_append_of_le_length hk]
    exact h k n
  · have hlen : (evs ++ [RMEvent.allocate rm c]).length ≤ k := by
      simp; omega
    rw [List.take_of_length_le hlen, freeCountE_append, allocCountE_append]
    have hev := h evs.length n
    rw [List.take_length] at hev
    have h2 : freeCountE [RMEvent.allocate rm c] n = 0 := by
      simp [freeCountE]
    omega

theorem pairedPrefixes_append_free (evs : List RMEvent) (rm : String)
    (c : EmulatorCompute) (h : PairedPrefixes evs)
    (hc : freeCountE evs c.name < allocCountE evs c.name) :
    PairedPrefixes (evs ++ [RMEvent.free rm c]) := by
  intro k n
  rcases le_or_lt k evs.length with hk | hk
  · rw [List.take_append_of_le_length hk]
    exact h k n
  · have hlen : (evs ++ [RMEvent.free rm c]).length ≤ k := by
      simp; omega
    rw [List.take_of_length_le hlen, freeCountE_append, allocCountE_append]
    have hev := h evs.length n
    rw [List.take_length] at hev
    have h2 : allocCountE [RMEvent.free rm c] n = 0 := by
      simp [allocCountE]
    by_cases hn : c.name = n
    · have h3 : freeCountE [RMEvent.free rm c] n = 1 := by
        simp [freeCountE, hn]
      subst hn
      omega
    · have h3 : freeCountE [RMEvent.free rm c] n = 0 := by
        simp [freeCountE, hn]
      omega

/-! ### Bookkeeping invariant preservation -/

theorem startNames_start_some (n : String) (img cmd : Option String)
    (nw : NetworkArg) (fl : String) (ops : List DCOp) :
    startNames (.startOp (some n) img cmd nw fl :: ops) =
      n :: startNames ops := rfl

theorem startNames_stop (name : Option String) (ops : List DCOp) :
    startNames (.stopOp name :: ops) = startNames ops := rfl

theorem startNames_assign (rm : String) (ops : List DCOp) :
    startNames (.assignOp rm :: ops) = startNames ops := rfl

theorem stopNames_stop_some (n : String) (ops : List DCOp) :
    stopNames (.stopOp (some n) :: ops) = n :: stopNames ops := rfl

theorem stopNames_start (name img cmd : Option String) (nw : NetworkArg)
    (fl : String) (ops : List DCOp) :
    stopNames (.startOp name img cmd nw fl :: ops) = stopNames ops := by
  cases name <;> rfl

theorem stopNames_assign (rm : String) (ops : List DCOp) :
    stopNames (.assignOp rm :: ops) = stopNames ops := rfl

theorem mem_map_filter_ne {α : Type} (f : α → String) (l : List α)
    (n m : String) :
    m ∈ (l.filter (fun x => f x ≠ n)).map f ↔ m ∈ l.map f ∧ m ≠ n := by
  simp only [List.mem_map, List.mem_filter, decide_not, Bool.not_eq_true',
    decide_eq_false_iff_not]
  constructor
  · rintro ⟨x, ⟨hx, hxn⟩, rfl⟩
    exact ⟨⟨x, hx, rfl⟩, hxn⟩
  · rintro ⟨⟨x, hx, rfl⟩, hmn⟩
    exact ⟨x, ⟨hx, hmn⟩, rfl⟩

theorem runOp_preserves_DCInv (op : DCOp) (dc : Datacenter) (net : Net)
    (dc' : Datacenter) (net' : Net)
    (h : runOp op (dc, net) = some (dc', net'))
    (hinv : DCInv dc net) : DCInv dc' net' := by
  cases op with
  | startOp name img cmd nw fl =>
    cases name with
    | none => rw [runOp_start_none] at h; cases h
    | some n =>
      rw [runOp_start_eq] at h
      split at h
      · cases h
      · rename_i hmem
        injection h with h
        injection h with h1 h2
        subst h1; subst h2
        have hnk : n ∉ dc.containers.map (·.1) := fun hk =>
          hmem (hinv.keysInFabric n hk)
        refine ⟨?_, ?_, ?_⟩
        · simp only [List.map_append, List.map_cons, List.map_nil]
          rw [List.nodup_append]
          refine ⟨hinv.nodupKeys, List.nodup_singleton n, ?_⟩
          intro m hm hmn
          rw [List.mem_singleton] at hmn
          subst hmn
          exact hnk hm
        · intro m hm
          simp only [List.map_append, List.mem_append, List.map_cons,
            List.map_nil, List.mem_singleton] at hm ⊢
          rcases hm with hm | hm
          · exact Or.inl (hinv.keysInFabric m hm)
          · exact Or.inr hm
        · intro q hq
          rcases List.mem_append.mp hq with hq | hq
          · exact hinv.namesMatch q hq
          · rw [List.mem_singleton] at hq
            subst hq
            rfl
  | stopOp name =>
    cases name with
    | none => rw [runOp_stop_none] at h; cases h
    | some n =>
      rw [runOp_stop_eq] at h
      cases hh : (dc.containers.filter (·.1 = n)).head? with
      | none => rw [hh] at h; cases h
      | some p =>
        rw [hh] at h
        injection h with h
        injection h with h1 h2
        subst h1; subst h2
        refine ⟨?_, ?_, ?_⟩
        · exact hinv.nodupKeys.sublist
            (List.Sublist.map _ (List.filter_sublist _))
        · intro m hm
          rw [mem_map_filter_ne] at hm
          rw [mem_map_filter_ne]
          exact ⟨hinv.keysInFabric m hm.1, hm.2⟩
        · intro q hq
          exact hinv.namesMatch q (List.mem_of_mem_filter hq)
  | assignOp rm =>
    rw [runOp_assign_eq] at h
    cases hrm : dc.resource_model with
    | some r => rw [hrm] at h; cases h
    | none =>
      rw [hrm] at h
      injection h with h
      injection h with h1 h2
      subst h1; subst h2
      exact ⟨hinv.nodupKeys, hinv.keysInFabric, hinv.namesMatch⟩

theorem runOps_preserves_DCInv (ops : List DCOp) (dc : Datacenter)
    (net : Net) (dc' : Datacenter) (net' : Net)
    (h : runOps ops (dc, net) = some (dc', net'))
    (hinv : DCInv dc net) : DCInv dc' net' := by
  induction ops generalizing dc net with
  | nil =>
    simp only [runOps, Option.some.injEq] at h
    injection h with h1 h2
    subst h1; subst h2
    exact hinv
  | cons op ops ih =>
    simp only [runOps] at h
    cases hop : runOp op (dc, net) with
    | none => rw [hop] at h; cases h
    | some s2 =>
      rw [hop] at h
      exact ih s2.1 s2.2 h (runOp_preserves_DCInv op dc net s2.1 s2.2 hop hinv)


theorem runOps_keys_mem (ops : List DCOp) (dc : Datacenter) (net : Net)
    (dc' : Datacenter) (net' : Net)
    (hrun : runOps ops (dc, net) = some (dc', net'))
    (hinv : DCInv dc net)
    (hnodup : (startNames ops).Nodup)
    (hdisj : ∀ m ∈ startNames ops, m ∉ dc.containers.map (·.1)) :
    ∀ n, n ∈ dc'.containers.map (·.1) ↔
      ((n ∈ startNames ops ∨ n ∈ dc.containers.map (·.1)) ∧
        n ∉ stopNames ops) := by
  induction ops generalizing dc net with
  | nil =>
    simp only [runOps, Option.some.injEq] at hrun
    injection hrun with h1 h2
    subst h1; subst h2
    intro n
    simp [startNames, stopNames]
  | cons op ops ih =>
    simp only [runOps] at hrun
    cases hop : runOp op (dc, net) with
    | none => rw [hop] at hrun; cases hrun
    | some s2 =>
    rw [hop] at hrun
    cases op with
    | startOp name img cmd nw fl =>
      cases name with
      | none => rw [runOp_start_none] at hop; cases hop
      | some m =>
        rw [runOp_start_eq] at hop
        split at hop
        · cases hop
        · rename_i hmem
          injection hop with hop
          subst hop
          rw [startNames_start_some] at hnodup hdisj
          rw [List.nodup_cons] at hnodup
          have hinvA := runOp_preserves_DCInv
            (.startOp (some m) img cmd nw fl) dc net _ _
            (by rw [runOp_start_eq, if_neg hmem]) hinv
          have hdisjA : ∀ m' ∈ startNames ops,
              m' ∉ (dc.containers ++
                [(m, EmulatorCompute.mk m (img.getD "ubuntu") cmd dc.name
                  fl)]).map (·.1) := by
            intro m' hm' hk
            simp only [List.map_append, List.mem_append, List.map_cons,
              List.map_nil, List.mem_singleton] at hk
            rcases hk with hk | hk
            · exact hdisj m' (List.mem_cons_of_mem m hm') hk
            · subst hk
              exact hnodup.1 hm'
          have hiter := ih _ _ hrun hinvA hnodup.2 hdisjA
          intro n
          rw [hiter n, startNames_start_some, stopNames_start]
          simp only [List.map_append, List.mem_append, List.map_cons,
            List.map_nil, List.mem_singleton, List.mem_cons]
          tauto
    | stopOp name =>
      cases name with
      | none => rw [runOp_stop_none] at hop; cases hop
      | some m =>
        rw [runOp_stop_eq] at hop
        cases hh : (dc.containers.filter (·.1 = m)).head? with
        | none => rw [hh] at hop; cases hop
        | some p =>
          rw [hh] at hop
          injection hop with hop
          subst hop
          have hpmem : p ∈ dc.containers ∧ p.1 = m := by
            have hp := List.mem_filter.mp (List.mem_of_mem_head? hh)
            exact ⟨hp.1, by simpa using hp.2⟩
          have hmkeys : m ∈ dc.containers.map (·.1) :=
            List.mem_map.mpr ⟨p, hpmem.1, hpmem.2⟩
          rw [startNames_stop] at hnodup hdisj
          have hmnotstart : m ∉ startNames ops := fun hs =>
            hdisj m hs hmkeys
          have hinvA := runOp_preserves_DCInv (.stopOp (some m)) dc net _ _
            (by rw [runOp_stop_eq, hh]) hinv
          have hdisjA : ∀ m' ∈ startNames ops,
              m' ∉ (dc.containers.filter (·.1 ≠ m)).map (·.1) := by
            intro m' hm' hk
            rw [mem_map_filter_ne] at hk
            exact hdisj m' hm' hk.1
          have hiter := ih _ _ hrun hinvA hnodup hdisjA
          intro n
          rw [hiter n, startNames_stop, stopNames_stop_some]
          rw [mem_map_filter_ne]
          by_cases hnm : n = m
          · subst hnm
            simp [hmnotstart]
          · simp only [List.mem_cons]
            tauto
    | assignOp rm =>
      rw [runOp_assign_eq] at hop
      cases hrm : dc.resource_model with
      | some r => rw [hrm] at hop; cases hop
      | none =>
        rw [hrm] at hop
        injection hop with hop
        subst hop
        rw [startNames_assign] at hnodup hdisj
        have hinvA := runOp_preserves_DCInv (.assignOp rm) dc net _ _
          (by rw [runOp_assign_eq, hrm]) hinv
        have hiter := ih _ _ hrun hinvA hnodup hdisj
        intro n
        rw [hiter n, startNames_assign, stopNames_assign]

/-- C1: running any sequence of successful `startCompute`/`stopCompute`
calls with pairwise distinct start names against one Datacenter (initially
empty bookkeeping), `listCompute()` returns exactly the instances whose
names were started but not stopped: a name is listed iff it was started and
not stopped, and the returned names are pairwise distinct (one entry per
such name, no others). -/
theorem c1_listCompute_tracks_live_names (ops : List DCOp)
    (dc : Datacenter) (net : Net) (dc' : Datacenter) (net' : Net)
    (hss : ∀ op ∈ ops, op.isAssign = false)
    (hfresh : dc.containers = [])
    (hnodup : (startNames ops).Nodup)
    (hrun : runOps ops (dc, net) = some (dc', net')) :
    (∀ n, n ∈ dc'.listCompute.map (·.name) ↔
      (n ∈ startNames ops ∧ n ∉ stopNames ops)) ∧
    (dc'.listCompute.map (·.name)).Nodup := by
  have hinv : DCInv dc net :=
    ⟨by rw [hfresh]; simp, by rw [hfresh]; simp, by rw [hfresh]; simp⟩
  have hinv' := runOps_preserves_DCInv ops dc net dc' net' hrun hinv
  have hkeys : dc'.listCompute.map (·.name) = dc'.containers.map (·.1) := by
    unfold Datacenter.listCompute
    rw [List.map_map]
    exact List.map_congr_left fun q hq => hinv'.namesMatch q hq
  have hmem := runOps_keys_mem ops dc net dc' net' hrun hinv hnodup
    (by rw [hfresh]; simp)
  constructor
  · intro n
    rw [hkeys, hmem n, hfresh]
    simp
  · rw [hkeys]
    exact hinv'.nodupKeys

/-- Witness for C1: start "a", start "b", stop "a" on a fresh
Datacenter — "b" is listed, "a" is not, and the listing has no
duplicates. -/
theorem c1_witness :
    ((∀ op ∈ ([.startOp (some "a") none none .noneArg "tiny",
        .startOp (some "b") none none .noneArg "tiny",
        .stopOp (some "a")] : List DCOp), op.isAssign = false) ∧
     (Datacenter.mk "dc1" "d" [] none [] none).containers = [] ∧
     (startNames [.startOp (some "a") none none .noneArg "tiny",
        .startOp (some "b") none none .noneArg "tiny",
        .stopOp (some "a")]).Nodup ∧
     runOps [.startOp (some "a") none none .noneArg "tiny",
        .startOp (some "b") none none .noneArg "tiny",
        .stopOp (some "a")]
        (Datacenter.mk "dc1" "d" [] none [] none, freshNet) =
       some (Datacenter.mk "dc1" "d" [] none
          [("b", EmulatorCompute.mk "b" "ubuntu" none "dc1" "tiny")] none,
        Net.mk [EmulatorCompute.mk "b" "ubuntu" none "dc1" "tiny"]
          [FabricLink.mk (EmulatorCompute.mk "b" "ubuntu" none "dc1" "tiny")
            none (NetSpec.mk none)] [] [] [])) ∧
    (("b" ∈ (Datacenter.mk "dc1" "d" [] none
        [("b", EmulatorCompute.mk "b" "ubuntu" none "dc1" "tiny")]
        none).listCompute.map (·.name) ↔
      ("b" ∈ startNames [.startOp (some "a") none none .noneArg "tiny",
          .startOp (some "b") none none .noneArg "tiny",
          .stopOp (some "a")] ∧
       "b" ∉ stopNames [.startOp (some "a") none none .noneArg "tiny",
          .startOp (some "b") none none .noneArg "tiny",
          .stopOp (some "a")])) ∧
     ((Datacenter.mk "dc1" "d" [] none
        [("b", EmulatorCompute.mk "b" "ubuntu" none "dc1" "tiny")]
        none).listCompute.map (·.name)).Nodup) :=
  ⟨⟨by decide, rfl, by decide, rfl⟩,
   (c1_listCompute_tracks_live_names
      [.startOp (some "a") none none .noneArg "tiny",
       .startOp (some "b") none none .noneArg "tiny",
       .stopOp (some "a")]
      (Datacenter.mk "dc1" "d" [] none [] none) freshNet _ _
      (by decide) rfl (by decide) rfl).1 "b",
   (c1_listCompute_tracks_live_names
      [.startOp (some "a") none none .noneArg "tiny",
       .startOp (some "b") none none .noneArg "tiny",
       .stopOp (some "a")]
      (Datacenter.mk "dc1" "d" [] none [] none) freshNet _ _
      (by decide) rfl (by decide) rfl).2⟩

/-! ### Allocate/free pairing -/

theorem allocCountE_snoc_alloc (evs : List RMEvent) (rm : String)
    (d : EmulatorCompute) (n : String) :
    allocCountE (evs ++ [RMEvent.allocate rm d]) n =
      allocCountE evs n + (if d.name = n then 1 else 0) := by
  rw [allocCountE_append]
  by_cases h : d.name = n <;> simp [allocCountE, h]

theorem freeCountE_snoc_alloc (evs : List RMEvent) (rm : String)
    (d : EmulatorCompute) (n : String) :
    freeCountE (evs ++ [RMEvent.allocate rm d]) n = freeCountE evs n := by
  rw [freeCountE_append]
  simp [freeCountE]

theorem allocCountE_snoc_free (evs : List RMEvent) (rm : String)
    (d : EmulatorCompute) (n : String) :
    allocCountE (evs ++ [RMEvent.free rm d]) n = allocCountE evs n := by
  rw [allocCountE_append]
  simp [allocCountE]

theorem freeCountE_snoc_free (evs : List RMEvent) (rm : String)
    (d : EmulatorCompute) (n : String) :
    freeCountE (evs ++ [RMEvent.free rm d]) n =
      freeCountE evs n + (if d.name = n then 1 else 0) := by
  rw [freeCountE_append]
  by_cases h : d.name = n <;> simp [freeCountE, h]

theorem rmBit_eq (dc : Datacenter) :
    rmBit dc = (match dc.resource_model with | some _ => 1 | none => 0) :=
  rfl


theorem runOps_RMInv (ops : List DCOp) (dc : Datacenter) (net : Net)
    (dc' : Datacenter) (net' : Net)
    (hna : noAssigns ops = true)
    (hrun : runOps ops (dc, net) = some (dc', net'))
    (hinv : RMInv dc net ops) : RMInv dc' net' [] := by
  induction ops generalizing dc net with
  | nil =>
    simp only [runOps, Option.some.injEq] at hrun
    injection hrun with h1 h2
    subst h1; subst h2
    exact ⟨hinv.base, List.nodup_nil,
      fun m hm => absurd hm (List.not_mem_nil m),
      hinv.active, hinv.inactive, hinv.paired⟩
  | cons op ops ih =>
    simp only [noAssigns, List.all_cons, Bool.and_eq_true] at hna
    have hna2 : noAssigns ops = true := hna.2
    simp only [runOps] at hrun
    cases hop : runOp op (dc, net) with
    | none => rw [hop] at hrun; cases hrun
    | some s2 =>
    rw [hop] at hrun
    cases op with
    | assignOp rm => simp [DCOp.isAssign] at hna
    | startOp name img cmd nw fl =>
      cases name with
      | none => rw [runOp_start_none] at hop; cases hop
      | some m =>
        rw [runOp_start_eq] at hop
        split at hop
        · cases hop
        · rename_i hmem
          injection hop with hop
          subst hop
          have hnodup2 := hinv.startsNodup
          rw [startNames_start_some, List.nodup_cons] at hnodup2
          have hfm := hinv.startsFresh m (by
            rw [startNames_start_some]; exact List.mem_cons_self m _)
          refine ih _ _ hna2 hrun ?_
          refine ⟨runOp_preserves_DCInv _ _ _ _ _
            (by rw [runOp_start_eq, if_neg hmem]) hinv.base,
            hnodup2.2, ?_, ?_, ?_, ?_⟩
          · -- startsFresh
            intro m' hm'
            have hne : m ≠ m' := fun he => (he ▸ hnodup2.1) hm'
            have hf := hinv.startsFresh m' (by
              rw [startNames_start_some]; exact List.mem_cons_of_mem m hm')
            have hkeys : m' ∉ (dc.containers ++
                [(m, EmulatorCompute.mk m (img.getD "ubuntu") cmd dc.name
                  fl)]).map (·.1) := by
              simp only [List.map_append, List.mem_append, List.map_cons,
                List.map_nil, List.mem_singleton]
              rintro (hk | hk)
              · exact hf.2.2 hk
              · exact hne hk.symm
            refine ⟨?_, ?_, hkeys⟩
            · cases hrm : dc.resource_model with
              | none => simp only [hrm, allocOpt, List.append_nil]; exact hf.1
              | some r =>
                simp only [hrm, allocOpt, allocCountE_snoc_alloc]
                rw [hf.1, if_neg (by simpa using hne)]
            · cases hrm : dc.resource_model with
              | none =>
                simp only [hrm, allocOpt, List.append_nil]; exact hf.2.1
              | some r =>
                simp only [hrm, allocOpt, freeCountE_snoc_alloc]
                exact hf.2.1
          · -- active
            intro m' hm'
            simp only [List.map_append, List.mem_append, List.map_cons,
              List.map_nil, List.mem_singleton] at hm'
            rcases hm' with hm' | hm'
            · have hold := hinv.active m' hm'
              have hne : m ≠ m' := fun he => hfm.2.2 (he ▸ hm')
              cases hrm : dc.resource_model with
              | none =>
                simp only [hrm, allocOpt, List.append_nil, rmBit_eq]
                simp only [rmBit_eq, hrm] at hold
                exact hold
              | some r =>
                simp only [hrm, allocOpt, allocCountE_snoc_alloc,
                  freeCountE_snoc_alloc, rmBit_eq]
                simp only [rmBit_eq, hrm] at hold
                rw [if_neg (by simpa using hne)]
                exact hold
            · subst hm'
              cases hrm : dc.resource_model with
              | none =>
                simp only [hrm, allocOpt, List.append_nil, rmBit_eq]
                exact ⟨hfm.1, hfm.2.1⟩
              | some r =>
                simp only [hrm, allocOpt, allocCountE_snoc_alloc,
                  freeCountE_snoc_alloc, rmBit_eq]
                simp [hfm.1, hfm.2.1]
          · -- inactive
            intro m' hm'
            simp only [List.map_append, List.mem_append, List.map_cons,
              List.map_nil, List.mem_singleton] at hm'
            push_neg at hm'
            have hold := hinv.inactive m' hm'.1
            cases hrm : dc.resource_model with
            | none =>
              simp only [hrm, allocOpt, List.append_nil, rmBit_eq]
              simp only [rmBit_eq, hrm] at hold
              exact hold
            | some r =>
              simp only [hrm, allocOpt, allocCountE_snoc_alloc,
                freeCountE_snoc_alloc, rmBit_eq]
              simp only [rmBit_eq, hrm] at hold
              rw [if_neg (by simpa using fun he => hm'.2 he.symm)]
              exact hold
          · -- paired
            cases hrm : dc.resource_model with
            | none =>
              simp only [hrm, allocOpt, List.append_nil]
              exact hinv.paired
            | some r =>
              simp only [hrm, allocOpt]
              exact pairedPrefixes_append_alloc _ _ _ hinv.paired
    | stopOp name =>
      cases name with
      | none => rw [runOp_stop_none] at hop; cases hop
      | some m =>
        rw [runOp_stop_eq] at hop
        cases hh : (dc.containers.filter (·.1 = m)).head? with
        | none => rw [hh] at hop; cases hop
        | some p =>
          rw [hh] at hop
          injection hop with hop
          subst hop
          have hpmem : p ∈ dc.containers ∧ p.1 = m := by
            have hp := List.mem_filter.mp (List.mem_of_mem_head? hh)
            exact ⟨hp.1, by simpa using hp.2⟩
          have hpname : p.2.name = m := by
            rw [hinv.base.namesMatch p hpmem.1, hpmem.2]
          have hmkeys : m ∈ dc.containers.map (·.1) :=
            List.mem_map.mpr ⟨p, hpmem.1, hpmem.2⟩
          have hact := hinv.active m hmkeys
          have hnodup2 := hinv.startsNodup
          rw [startNames_stop] at hnodup2
          refine ih _ _ hna2 hrun ?_
          refine ⟨runOp_preserves_DCInv _ _ _ _ _
            (by rw [runOp_stop_eq, hh]) hinv.base,
            hnodup2, ?_, ?_, ?_, ?_⟩
          · -- startsFresh
            intro m' hm'
            have hf := hinv.startsFresh m' (by rwa [startNames_stop])
            have hne : m ≠ m' := fun he => hf.2.2 (he ▸ hmkeys)
            have hkeys : m' ∉ (dc.containers.filter (·.1 ≠ m)).map (·.1) :=
              fun hk => hf.2.2 ((mem_map_filter_ne _ _ _ _).mp hk).1
            refine ⟨?_, ?_, hkeys⟩
            · cases hrm : dc.resource_model with
              | none => simp only [hrm, freeOpt, List.append_nil]; exact hf.1
              | some r =>
                simp only [hrm, freeOpt, allocCountE_snoc_free]
                exact hf.1
            · cases hrm : dc.resource_model with
              | none =>
                simp only [hrm, freeOpt, List.append_nil]; exact hf.2.1
              | some r =>
                simp only [hrm, freeOpt, freeCountE_snoc_free]
                rw [hf.2.1, hpname, if_neg (by simpa using hne)]
          · -- active
            intro m' hm'
            rw [mem_map_filter_ne] at hm'
            have hold := hinv.active m' hm'.1
            have hne : m ≠ m' := fun he => hm'.2 he.symm
            cases hrm : dc.resource_model with
            | none =>
              simp only [hrm, freeOpt, List.append_nil, rmBit_eq]
              simp only [rmBit_eq, hrm] at hold
              exact hold
            | some r =>
              simp only [hrm, freeOpt, allocCountE_snoc_free,
                freeCountE_snoc_free, rmBit_eq]
              simp only [rmBit_eq, hrm] at hold
              rw [hpname, if_neg (by simpa using hne)]
              exact hold
          · -- inactive
            intro m' hm'
            rw [mem_map_filter_ne] at hm'
            push_neg at hm'
            by_cases hem : m' = m
            · subst hem
              have hold := hinv.active m' hmkeys
              cases hrm : dc.resource_model with
              | none =>
                simp only [rmBit_eq, hrm] at hold
                simp only [hrm, freeOpt, List.append_nil, rmBit_eq]
                exact ⟨by rw [hold.1, hold.2], by rw [hold.1]⟩
              | some r =>
                simp only [rmBit_eq, hrm] at hold
                simp only [hrm, freeOpt, allocCountE_snoc_free,
                  freeCountE_snoc_free, rmBit_eq]
                rw [hpname, if_pos rfl, hold.1, hold.2]
                exact ⟨by omega, by omega⟩
            · have hm'keys : m' ∉ dc.containers.map (·.1) := fun hk =>
                hem (hm' hk)
              have hold := hinv.inactive m' hm'keys
              cases hrm : dc.resource_model with
              | none =>
                simp only [rmBit_eq, hrm] at hold
                simp only [hrm, freeOpt, List.append_nil, rmBit_eq]
                exact hold
              | some r =>
                simp only [rmBit_eq, hrm] at hold
                simp only [hrm, freeOpt, allocCountE_snoc_free,
                  freeCountE_snoc_free, rmBit_eq]
                rw [hpname, if_neg (by simpa using fun he => hem he.symm)]
                exact hold
          · -- paired
            cases hrm : dc.resource_model with
            | none =>
              simp only [hrm, freeOpt, List.append_nil]
              exact hinv.paired
            | some r =>
              simp only [hrm, freeOpt]
              refine pairedPrefixes_append_free _ _ _ hinv.paired ?_
              rw [hpname]
              simp only [rmBit_eq, hrm] at hact
              omega

theorem runOps_phase1_RMInv (ops : List DCOp) (dc : Datacenter) (net : Net)
    (dc' : Datacenter) (net' : Net)
    (horder : assignsBeforeStarts ops = true)
    (hnodup : (startNames ops).Nodup)
    (hfresh : dc.containers = []) (hevs : net.rmEvents = [])
    (hrun : runOps ops (dc, net) = some (dc', net')) :
    RMInv dc' net' [] := by
  induction ops generalizing dc net with
  | nil =>
    simp only [runOps, Option.some.injEq] at hrun
    injection hrun with h1 h2
    subst h1; subst h2
    refine ⟨⟨by rw [hfresh]; simp, by rw [hfresh]; simp,
        by rw [hfresh]; simp⟩,
      List.nodup_nil, fun m hm => absurd hm (List.not_mem_nil m),
      ?_, ?_, ?_⟩
    · intro m hm
      rw [hfresh] at hm
      simp at hm
    · intro m _
      rw [hevs]
      exact ⟨rfl, Nat.zero_le _⟩
    · intro k n
      rw [hevs]
      simp [List.take_nil, allocCountE, freeCountE]
  | cons op ops ih =>
    cases op with
    | startOp name img cmd nw fl =>
      cases name with
      | none =>
        simp only [runOps] at hrun
        rw [runOp_start_none] at hrun
        cases hrun
      | some m =>
        have hna : noAssigns (DCOp.startOp (some m) img cmd nw fl :: ops) =
            true := by
          simp only [assignsBeforeStarts, DCOp.isStart, if_true] at horder
          simp only [noAssigns, List.all_cons, DCOp.isAssign,
            Bool.not_false, Bool.true_and]
          simpa [noAssigns] using horder
        refine runOps_RMInv _ dc net dc' net' hna hrun ?_
        refine ⟨⟨by rw [hfresh]; simp, by rw [hfresh]; simp,
            by rw [hfresh]; simp⟩,
          hnodup, ?_, ?_, ?_, ?_⟩
        · intro m' _
          rw [hevs, hfresh]
          exact ⟨rfl, rfl, by simp⟩
        · intro m' hm'
          rw [hfresh] at hm'
          simp at hm'
        · intro m' _
          rw [hevs]
          exact ⟨rfl, Nat.zero_le _⟩
        · intro k n
          rw [hevs]
          simp [List.take_nil, allocCountE, freeCountE]
    | stopOp name =>
      cases name with
      | none =>
        simp only [runOps] at hrun
        rw [runOp_stop_none] at hrun
        cases hrun
      | some m =>
        simp only [runOps] at hrun
        rw [runOp_stop_eq, hfresh] at hrun
        simp at hrun
    | assignOp rm =>
      simp only [runOps] at hrun
      cases hop : runOp (.assignOp rm) (dc, net) with
      | none => rw [hop] at hrun; cases hrun
      | some s2 =>
        rw [hop] at hrun
        rw [runOp_assign_eq] at hop
        cases hrm : dc.resource_model with
        | some r => rw [hrm] at hop; cases hop
        | none =>
          rw [hrm] at hop
          injection hop with hop
          subst hop
          have horder2 : assignsBeforeStarts ops = true := by
            simpa [assignsBeforeStarts, DCOp.isStart] using horder
          have hnodup2 : (startNames ops).Nodup := by
            rwa [startNames_assign] at hnodup
          exact ih { dc with resource_model := some rm }
            { net with registrar := net.registrar ++ [(dc.name, rm)] }
            horder2 hnodup2 hfresh hevs hrun

/-- C4 amended: over any sequence of successful Datacenter operations in
which `assignResourceModel` is never called after a `startCompute` (and
start names are pairwise distinct, so a name identifies an instance),
resource-model allocate and free calls are strictly paired: per instance at
most one allocate and at most one free, never a free without at least as
many prior allocates at every point of the trace, and once the instance is
stopped (absent from the bookkeeping) its allocate and free counts are
equal. -/
theorem c4_alloc_free_strictly_paired (ops : List DCOp)
    (dc : Datacenter) (net : Net) (dc' : Datacenter) (net' : Net)
    (horder : assignsBeforeStarts ops = true)
    (hnodup : (startNames ops).Nodup)
    (hfresh : dc.containers = []) (hevs : net.rmEvents = [])
    (hrun : runOps ops (dc, net) = some (dc', net')) :
    PairedPrefixes net'.rmEvents ∧
    ∀ n, allocCountE net'.rmEvents n ≤ 1 ∧
      freeCountE net'.rmEvents n ≤ 1 ∧
      freeCountE net'.rmEvents n ≤ allocCountE net'.rmEvents n ∧
      (n ∉ dc'.containers.map (·.1) →
        allocCountE net'.rmEvents n = freeCountE net'.rmEvents n) := by
  have hfin := runOps_phase1_RMInv ops dc net dc' net' horder hnodup
    hfresh hevs hrun
  have hbit : rmBit dc' ≤ 1 := by
    rw [rmBit_eq]
    split <;> omega
  refine ⟨hfin.paired, fun n => ?_⟩
  by_cases hm : n ∈ dc'.containers.map (·.1)
  · obtain ⟨ha, hf⟩ := hfin.active n hm
    exact ⟨by omega, by omega, by omega, fun hc => absurd hm hc⟩
  · obtain ⟨he, hle⟩ := hfin.inactive n hm
    exact ⟨by omega, by omega, by omega, fun _ => he⟩

/-- C4 counterexample: start "a" with no resource model, then
`assignResourceModel("m")`, then stop "a" — every call succeeds, and the
trace holds one `free` for "a" with zero prior `allocate` calls, refuting
the claim that free is never invoked for an instance without a prior
successful allocate under arbitrary operation order. -/
theorem c4_counterexample :
    runOps [.startOp (some "a") none none .noneArg "tiny", .assignOp "m",
        .stopOp (some "a")]
      (Datacenter.mk "dc1" "d" [] none [] none, freshNet) =
      some (Datacenter.mk "dc1" "d" [] none [] (some "m"),
        Net.mk [] [] [] [("dc1", "m")]
          [RMEvent.free "m"
            (EmulatorCompute.mk "a" "ubuntu" none "dc1" "tiny")]) ∧
    allocCountE [RMEvent.free "m"
      (EmulatorCompute.mk "a" "ubuntu" none "dc1" "tiny")] "a" = 0 ∧
    freeCountE [RMEvent.free "m"
      (EmulatorCompute.mk "a" "ubuntu" none "dc1" "tiny")] "a" = 1 :=
  ⟨rfl, rfl, rfl⟩

/-- Witness for the amended C4: assign the model first, then start and
stop "a" — one allocate and one free, correctly paired. -/
theorem c4_witness :
    (assignsBeforeStarts [.assignOp "m",
        .startOp (some "a") none none .noneArg "tiny",
        .stopOp (some "a")] = true ∧
     (startNames [.assignOp "m",
        .startOp (some "a") none none .noneArg "tiny",
        .stopOp (some "a")]).Nodup ∧
     (Datacenter.mk "dc1" "d" [] none [] none).containers = [] ∧
     freshNet.rmEvents = [] ∧
     runOps [.assignOp "m",
        .startOp (some "a") none none .noneArg "tiny",
        .stopOp (some "a")]
       (Datacenter.mk "dc1" "d" [] none [] none, freshNet) =
       some (Datacenter.mk "dc1" "d" [] none [] (some "m"),
         Net.mk [] [] [] [("dc1", "m")]
           [RMEvent.allocate "m"
              (EmulatorCompute.mk "a" "ubuntu" none "dc1" "tiny"),
            RMEvent.free "m"
              (EmulatorCompute.mk "a" "ubuntu" none "dc1" "tiny")])) ∧
    (PairedPrefixes [RMEvent.allocate "m"
        (EmulatorCompute.mk "a" "ubuntu" none "dc1" "tiny"),
      RMEvent.free "m"
        (EmulatorCompute.mk "a" "ubuntu" none "dc1" "tiny")] ∧
     (allocCountE [RMEvent.allocate "m"
          (EmulatorCompute.mk "a" "ubuntu" none "dc1" "tiny"),
        RMEvent.free "m"
          (EmulatorCompute.mk "a" "ubuntu" none "dc1" "tiny")] "a" ≤ 1 ∧
      freeCountE [RMEvent.allocate "m"
          (EmulatorCompute.mk "a" "ubuntu" none "dc1" "tiny"),
        RMEvent.free "m"
          (EmulatorCompute.mk "a" "ubuntu" none "dc1" "tiny")] "a" ≤ 1 ∧
      freeCountE [RMEvent.allocate "m"
          (EmulatorCompute.mk "a" "ubuntu" none "dc1" "tiny"),
        RMEvent.free "m"
          (EmulatorCompute.mk "a" "ubuntu" none "dc1" "tiny")] "a" ≤
        allocCountE [RMEvent.allocate "m"
            (EmulatorCompute.mk "a" "ubuntu" none "dc1" "tiny"),
          RMEvent.free "m"
            (EmulatorCompute.mk "a" "ubuntu" none "dc1" "tiny")] "a" ∧
      ("a" ∉ (Datacenter.mk "dc1" "d" [] none [] (some "m")).containers.map
          (·.1) →
        allocCountE [RMEvent.allocate "m"
            (EmulatorCompute.mk "a" "ubuntu" none "dc1" "tiny"),
          RMEvent.free "m"
            (EmulatorCompute.mk "a" "ubuntu" none "dc1" "tiny")] "a" =
        freeCountE [RMEvent.allocate "m"
            (EmulatorCompute.mk "a" "ubuntu" none "dc1" "tiny"),
          RMEvent.free "m"
            (EmulatorCompute.mk "a" "ubuntu" none "dc1" "tiny")] "a"))) :=
  ⟨⟨by decide, by decide, rfl, rfl, rfl⟩,
   (c4_alloc_free_strictly_paired
      [.assignOp "m", .startOp (some "a") none none .noneArg "tiny",
       .stopOp (some "a")]
      (Datacenter.mk "dc1" "d" [] none [] none) freshNet _ _
      (by decide) (by decide) rfl rfl rfl).1,
   (c4_alloc_free_strictly_paired
      [.assignOp "m", .startOp (some "a") none none .noneArg "tiny",
       .stopOp (some "a")]
      (Datacenter.mk "dc1" "d" [] none [] none) freshNet _ _
      (by decide) (by decide) rfl rfl rfl).2 "a"⟩

end SonEmu
